import Mathlib

/-!
Verification of the `mitremit` tool (`mitre-mitigates.go`).

The development shallowly embeds the pure core of the program:

* the string helpers (`quoteID`, `quoteLiteral`, `externalID`,
  `isSubtechnique`, `getParentTechniqueID`, the tactic table),
* the missing-set computation (`findMissingTechniques`, with the oracle's
  answer passed in as the list of found ids),
* the nGQL plan generation (`generateNGQL`, and the statement lists that
  `executeNGQL` runs in the same order),
* the technique collector and the mitigation resolver from `main`
  (parameterised by the parsed maps; Go map lookups become functions or
  association lists).

Go strings are modelled as Lean `String`s (lists of unicode scalar values);
Go's byte-wise string order coincides with the scalar-value order because
UTF-8 is order-preserving.  Library functions from the Go standard library
that the code calls (`strings.EqualFold`, `strings.TrimSpace`,
`strings.TrimPrefix`, `strconv.Quote`) are modelled character-exactly on
the ASCII range, which covers every catalogue code and every input used in
the statements proved below; the comments on each definition record the
modelling choice.
-/

set_option maxRecDepth 100000

namespace Mitremit

/-- Lowercase hexadecimal digit, as produced by Go's `strconv` escaping. -/
def hexDigitChar (n : Nat) : Char :=
  if n < 10 then Char.ofNat (48 + n) else Char.ofNat (87 + n)

/-- Two lowercase hex digits of a byte, as in Go's `\xhh` escapes. -/
def hexByteChars (n : Nat) : List Char :=
  [hexDigitChar (n / 16 % 16), hexDigitChar (n % 16)]

/-- One character of Go's `strconv.Quote` output (the body, between the
surrounding double quotes).  Exact for characters below `0x80`; code points
`≥ 0x80` are emitted verbatim (Go additionally escapes non-printable
non-ASCII runes, which never occur in the inputs considered here). -/
def goQuoteChar (c : Char) : List Char :=
  if c = '"' ∨ c = '\\' then ['\\', c]
  else if 0x20 ≤ c.toNat ∧ c.toNat ≤ 0x7E then [c]
  else if c = '\x07' then ['\\', 'a']
  else if c = '\x08' then ['\\', 'b']
  else if c = '\x0c' then ['\\', 'f']
  else if c = '\n' then ['\\', 'n']
  else if c = '\x0d' then ['\\', 'r']
  else if c = '\t' then ['\\', 't']
  else if c = '\x0b' then ['\\', 'v']
  else if c.toNat < 0x20 ∨ c.toNat = 0x7F then '\\' :: 'x' :: hexByteChars c.toNat
  else [c]

/-- `quoteLiteral` from the source: `strconv.Quote(s)` — a double-quoted
Go string literal with backslash escapes. -/
def quoteLiteral (s : String) : String :=
  String.mk ('"' :: s.data.flatMap goQuoteChar ++ ['"'])

/-- `quoteID` from the source: double every internal `"` and wrap the
result in double quotes (`strings.ReplaceAll(s, "\"", "\"\"")`). -/
def quoteID (s : String) : String :=
  String.mk ('"' :: s.data.flatMap (fun c => if c = '"' then ['"', '"'] else [c]) ++ ['"'])

/-- ASCII lower-casing of one character (the case folding of
`strings.EqualFold` restricted to ASCII). -/
def asciiToLower (c : Char) : Char :=
  if 65 ≤ c.toNat ∧ c.toNat ≤ 90 then Char.ofNat (c.toNat + 32) else c

/-- Models `strings.EqualFold`; exact on ASCII (all catalogue codes and
names compared by the program are ASCII). -/
def goEqualFold (a b : String) : Bool :=
  a.data.map asciiToLower == b.data.map asciiToLower

/-- Whitespace predicate of `strings.TrimSpace`, on the ASCII range. -/
def isSpaceGo (c : Char) : Bool :=
  c = ' ' || c = '\t' || c = '\n' || c = '\x0d' || c = '\x0b' || c = '\x0c'

/-- Models `strings.TrimSpace`: drop whitespace from both ends. -/
def goTrimSpace (s : String) : String :=
  String.mk (((s.data.dropWhile isSpaceGo).reverse.dropWhile isSpaceGo).reverse)

/-- Models `strings.TrimPrefix s pre`: remove `pre` from the front of `s`
when it is a prefix, otherwise return `s` unchanged. -/
def trimLeading (s pre : String) : String :=
  if pre.data.isPrefixOf s.data then String.mk (s.data.drop pre.data.length) else s

/-!  ## STIX data structures (from `mitre-mitigates.go`)

The JSON `type` discriminator fields are consumed by the bundle parser
before the records reach the core and are omitted here; the remaining
fields keep the source names.  -/

/-- `externalReference`: where ATT&CK stores the human-readable ID. -/
structure externalReference where
  SourceName : String
  ExternalID : String
  URL : String := ""
deriving DecidableEq, Repr

/-- `killChainPhase`: tactic info attached to a technique. -/
structure killChainPhase where
  KillChainName : String
  PhaseName : String
deriving DecidableEq, Repr

/-- `attackPattern`: a technique / sub-technique record. -/
structure attackPattern where
  ID : String
  Name : String
  ExternalRefs : List externalReference := []
  KillChain : List killChainPhase := []
deriving DecidableEq, Repr

/-- `courseOfAction`: a mitigation record. -/
structure courseOfAction where
  ID : String
  Name : String
  ExternalRefs : List externalReference := []
deriving DecidableEq, Repr

/-- `relationship`: a directed edge record. -/
structure relationship where
  ID : String := ""
  RelationshipType : String
  SourceRef : String
  TargetRef : String
deriving DecidableEq, Repr

/-- `techniqueInfo`: the collector's output record. -/
structure techniqueInfo where
  ExternalID : String
  Name : String
  Tactics : List String := []
deriving DecidableEq, Repr

/-- `externalID`: the first reference whose source is `mitre-attack`
(case-insensitively) and whose external id is non-empty; `none` models the
`("", false)` return. -/
def externalID : List externalReference → Option String
  | [] => none
  | r :: rs =>
    if goEqualFold r.SourceName "mitre-attack" && r.ExternalID != "" then some r.ExternalID
    else externalID rs

/-- `isSubtechnique`: `strings.Contains(techID, ".")`. -/
def isSubtechnique (techID : String) : Bool :=
  techID.data.contains '.'

/-- Models `strings.Index(s, ".")`: the index of the first `.`, with
`none` for Go's `-1`. -/
def stringsIndexDot : List Char → Option Nat
  | [] => none
  | c :: cs => if c == '.' then some 0 else (stringsIndexDot cs).map (fun i => i + 1)

/-- `getParentTechniqueID`: the part before the first `.` when that `.` is
at a positive index (`if idx := strings.Index(techID, "."); idx > 0`);
otherwise the id unchanged. -/
def getParentTechniqueID (techID : String) : String :=
  match stringsIndexDot techID.data with
  | some idx => if 0 < idx then String.mk (techID.data.take idx) else techID
  | none => techID

/-- `tacticPhaseToID` table: tactic phase name → tactic ID (the fixed
14-entry map from the source). -/
def tacticPhaseTable : List (String × String) :=
  [("reconnaissance", "TA0043"),
   ("resource-development", "TA0042"),
   ("initial-access", "TA0001"),
   ("execution", "TA0002"),
   ("persistence", "TA0003"),
   ("privilege-escalation", "TA0004"),
   ("defense-evasion", "TA0005"),
   ("credential-access", "TA0006"),
   ("discovery", "TA0007"),
   ("lateral-movement", "TA0008"),
   ("collection", "TA0009"),
   ("command-and-control", "TA0011"),
   ("exfiltration", "TA0010"),
   ("impact", "TA0040")]

/-- Lookup in `tacticPhaseToID` (Go map indexing with the `ok` flag). -/
def tacticPhaseToID (phase : String) : Option String :=
  tacticPhaseTable.lookup phase

/-- `findMissingTechniques`, with the oracle's reply (the list of ids the
`collect(id(t))` query returned) passed in as `foundTechniques`: the ids
of `techniqueIDs` absent from the found set, in input order. -/
def findMissingTechniques (techniqueIDs foundTechniques : List String) : List String :=
  techniqueIDs.filter (fun id => !(foundTechniques.contains id))

/-!  ## Statement templates

The four `fmt.Sprintf` templates shared verbatim by `generateNGQL` and by
`executeNGQL` (without the trailing newline, which only the script text
adds). -/

/-- STEP 1 template: insert one missing technique vertex. -/
def insertTechniqueStmt (t : techniqueInfo) : String :=
  "INSERT VERTEX IF NOT EXISTS tMitreTechnique(Technique_ID, Technique_Name, Mitre_Attack_Version, rcelpe, priority, execution_min, execution_max) VALUES "
    ++ quoteID t.ExternalID ++ ":(" ++ quoteLiteral t.ExternalID ++ ", "
    ++ quoteLiteral t.Name ++ ", \"18.0\", false, 4, 0.1667, 120);"

/-- STEP 2 template: one `has_subtechnique` edge, parent to subtechnique. -/
def subtechEdgeStmt (parentID childID : String) : String :=
  "INSERT EDGE IF NOT EXISTS has_subtechnique VALUES "
    ++ quoteID parentID ++ "->" ++ quoteID childID ++ "@0:();"

/-- STEP 3 template: one `part_of` edge, technique to tactic. -/
def partOfEdgeStmt (techID tacticID : String) : String :=
  "INSERT EDGE IF NOT EXISTS part_of VALUES "
    ++ quoteID techID ++ "->" ++ quoteID tacticID ++ "@0:();"

/-- STEP 4 template: one `mitigates` edge, mitigation to technique. -/
def mitigatesEdgeStmt (mitigationID techID : String) : String :=
  "INSERT EDGE IF NOT EXISTS mitigates VALUES "
    ++ quoteID mitigationID ++ "->" ++ quoteID techID ++ "@0:(NULL, \"Enterprise\");"

/-!  ## The statement plan

The Go code materialises `missingTechniques` as a `map[string]bool` and
filters `techniques` against it in each loop; list membership plays the
role of the map. -/

/-- STEP 1 statements: a vertex insert per technique in the missing set. -/
def step1Stmts (techniques : List techniqueInfo) (missingTechniques : List String) :
    List String :=
  (techniques.filter (fun t => missingTechniques.contains t.ExternalID)).map
    insertTechniqueStmt

/-- STEP 2 statements: a hierarchy edge per missing sub-technique. -/
def step2Stmts (techniques : List techniqueInfo) (missingTechniques : List String) :
    List String :=
  (techniques.filter
      (fun t => missingTechniques.contains t.ExternalID && isSubtechnique t.ExternalID)).map
    (fun t => subtechEdgeStmt (getParentTechniqueID t.ExternalID) t.ExternalID)

/-- The `part_of` edges of one technique: one per tactic phase that has a
table entry. -/
def tacticEdgesFor (t : techniqueInfo) : List String :=
  t.Tactics.filterMap (fun phase =>
    (tacticPhaseToID phase).map (fun tacticID => partOfEdgeStmt t.ExternalID tacticID))

/-- STEP 3 statements: the `part_of` edges of every missing technique. -/
def step3Stmts (techniques : List techniqueInfo) (missingTechniques : List String) :
    List String :=
  (techniques.filter (fun t => missingTechniques.contains t.ExternalID)).flatMap
    tacticEdgesFor

/-- STEP 4 statements: one `mitigates` edge per resolved technique — the
whole list, not just the missing ones. -/
def step4Stmts (mitigationID : String) (techniques : List techniqueInfo) : List String :=
  techniques.map (fun t => mitigatesEdgeStmt mitigationID t.ExternalID)

/-- All statements of one run, in the order `executeNGQL` executes them
and `generateNGQL` prints them (empty phases contribute nothing). -/
def planStatements (mitigationID : String) (techniques : List techniqueInfo)
    (missingTechniques : List String) : List String :=
  step1Stmts techniques missingTechniques ++ step2Stmts techniques missingTechniques
    ++ step3Stmts techniques missingTechniques ++ step4Stmts mitigationID techniques

/-!  ## The generated script (`generateNGQL`)

A line-by-line translation: each `b.WriteString` becomes an append, each
`for` loop a `foldl` over `techniques`. -/

/-- The `-- ====…====` banner line. -/
def sepLine : String :=
  "-- ============================================================\n"

/-- Join statements, each on its own `\n`-terminated line. -/
def joinLines : List String → String
  | [] => ""
  | s :: rest => s ++ "\n" ++ joinLines rest

/-- The script preamble naming the mitigation. -/
def scriptHeader (mitigationID mitigationName : String) : String :=
  sepLine ++ ("-- nGQL script for mitigation " ++ mitigationID ++ " (" ++ mitigationName ++ ")\n")
    ++ sepLine ++ "\n"

/-- The trailing verification-query comment block. -/
def verifyFooter (mitigationID : String) (techniques : List techniqueInfo) : String :=
  "\n" ++ sepLine ++ "-- STEP 5: Verification query\n" ++ sepLine ++ "\n"
    ++ "-- Run this to verify the mitigation has correct edge count:\n"
    ++ ("-- MATCH (m:tMitreMitigation)-[e:mitigates]->(t) WHERE id(m) == \""
        ++ mitigationID ++ "\" RETURN COUNT(e);\n")
    ++ ("-- Expected count: " ++ toString techniques.length ++ "\n\n")

/-- `generateNGQL`: the full script text. -/
def generateNGQL (mitigationID mitigationName : String)
    (techniques : List techniqueInfo) (missingTechniques : List String) : String :=
  let missingMap : String → Bool := fun id => missingTechniques.contains id
  let b0 := scriptHeader mitigationID mitigationName
  let b1 :=
    if missingTechniques.length > 0 then
      let h1 := b0 ++ sepLine ++ "-- STEP 1: Insert missing techniques\n" ++ sepLine ++ "\n"
      let s1 := techniques.foldl
        (fun b t => if missingMap t.ExternalID then b ++ insertTechniqueStmt t ++ "\n" else b) h1
      let h2 := s1 ++ "\n" ++ sepLine
        ++ "-- STEP 2: Insert has_subtechnique edges (parent to subtechnique)\n" ++ sepLine ++ "\n"
      let s2 := techniques.foldl
        (fun b t =>
          if missingMap t.ExternalID then
            if isSubtechnique t.ExternalID then
              b ++ subtechEdgeStmt (getParentTechniqueID t.ExternalID) t.ExternalID ++ "\n"
            else b
          else b) h2
      let h3 := s2 ++ "\n" ++ sepLine
        ++ "-- STEP 3: Insert part_of edges (technique/subtechnique to tactic)\n" ++ sepLine ++ "\n"
      let s3 := techniques.foldl
        (fun b t =>
          if missingMap t.ExternalID then
            t.Tactics.foldl
              (fun b2 phase =>
                match tacticPhaseToID phase with
                | some tacticID => b2 ++ partOfEdgeStmt t.ExternalID tacticID ++ "\n"
                | none => b2) b
          else b) h3
      s3 ++ "\n"
    else b0
  let h4 := b1 ++ sepLine
    ++ "-- STEP 4: Insert mitigates edges (mitigation to techniques)\n" ++ sepLine ++ "\n"
  let s4 := techniques.foldl
    (fun b t => b ++ mitigatesEdgeStmt mitigationID t.ExternalID ++ "\n") h4
  s4 ++ verifyFooter mitigationID techniques

/-!  ## The collector (technique-gathering loop of `main`)

`techMap` (a Go map from STIX id to `attackPattern`) is passed as a
lookup function; `seen` is the dedup set, a list standing for the
`map[string]bool`. -/

/-- The derived external code of a technique: the tagged external id, or
the STIX id with the `attack-pattern--` prefix trimmed when absent
(`externalID` returning `("", false)` is the Go empty-string case). -/
def behaviorExtCode (tp : attackPattern) : String :=
  let ext := (externalID tp.ExternalRefs).getD ""
  if ext = "" then trimLeading tp.ID "attack-pattern--" else ext

/-- The tactic phase names of a technique: the phases of its kill-chain
entries whose chain name is `mitre-attack`. -/
def tacticsOf (tp : attackPattern) : List String :=
  (tp.KillChain.filter (fun kc => kc.KillChainName == "mitre-attack")).map
    (fun kc => kc.PhaseName)

/-- The `techniqueInfo` record appended for one resolved target. -/
def entryOf (tp : attackPattern) : techniqueInfo :=
  { ExternalID := behaviorExtCode tp, Name := tp.Name, Tactics := tacticsOf tp }

/-- The relationship scan of `main`: keep `mitigates` edges out of the
chosen mitigation, dereference targets, and skip codes already seen. -/
def collectLoop (techMap : String → Option attackPattern) (chosen : String) :
    List relationship → List String → List techniqueInfo
  | [], _ => []
  | r :: rest, seen =>
    if r.RelationshipType ≠ "mitigates" then collectLoop techMap chosen rest seen
    else if r.SourceRef ≠ chosen then collectLoop techMap chosen rest seen
    else
      match techMap r.TargetRef with
      | none => collectLoop techMap chosen rest seen
      | some tp =>
        let e := entryOf tp
        if seen.contains e.ExternalID then collectLoop techMap chosen rest seen
        else e :: collectLoop techMap chosen rest (e.ExternalID :: seen)

/-- The same scan without the dedup set: every qualifying relationship
contributes its entry, in relationship order. -/
def rawMitigatedEntries (techMap : String → Option attackPattern) (chosen : String) :
    List relationship → List techniqueInfo
  | [] => []
  | r :: rest =>
    if r.RelationshipType == "mitigates" && r.SourceRef == chosen then
      match techMap r.TargetRef with
      | some tp => entryOf tp :: rawMitigatedEntries techMap chosen rest
      | none => rawMitigatedEntries techMap chosen rest
    else rawMitigatedEntries techMap chosen rest

/-- The collector: scan, dedup, then `sort.Slice` ascending by external
code.  `mergeSort` with `≤` on codes models the Go sort: the codes are
pairwise distinct after dedup, so the sorted permutation is unique and
stability/instability cannot be observed. -/
def collectTechniques (techMap : String → Option attackPattern) (chosen : String)
    (rels : List relationship) : List techniqueInfo :=
  (collectLoop techMap chosen rels []).mergeSort
    (fun a b => decide (a.ExternalID ≤ b.ExternalID))

/-- Specification-side dedup, following the spec's words: the first
occurrence of each external code wins, later duplicates are dropped. -/
def dedupFirstByCode : List techniqueInfo → List techniqueInfo
  | [] => []
  | e :: es =>
    e :: dedupFirstByCode (es.filter (fun x => x.ExternalID != e.ExternalID))
termination_by l => l.length
decreasing_by
  exact Nat.lt_succ_of_le (List.length_filter_le _ _)

/-!  ## The resolver (mitigation lookup of `main`)

The Go map `mitMap` is passed as an association list
(STIX id, courseOfAction); Go map iteration order is unspecified, and the
properties proved below are order-independent. -/

/-- Lookup by external id (`-mitigation Mxxxx`): `chosenMitSTIXID` after
the loop — the key of the first entry whose tagged external code matches
the query case-insensitively, and the initial value `""` when no entry
matches.  The program then treats `chosenMitSTIXID == ""` as NotFound, so
the empty string is a sentinel, not a found key. -/
def resolveByID (mitMap : List (String × courseOfAction)) (mitID : String) : String :=
  match mitMap.find? (fun p =>
      match externalID p.2.ExternalRefs with
      | some ext => goEqualFold ext mitID
      | none => false) with
  | some p => p.1
  | none => ""

/-- Lookup by display name (`-mitigation-name`): `chosenMitSTIXID` after
the by-name loop, with the same `""` NotFound sentinel. -/
def resolveByName (mitMap : List (String × courseOfAction)) (mitName : String) : String :=
  let target := goTrimSpace mitName
  match mitMap.find? (fun p => goEqualFold p.2.Name target) with
  | some p => p.1
  | none => ""

/-- STEP 1 banner of the script. -/
def step1Header : String :=
  sepLine ++ "-- STEP 1: Insert missing techniques\n" ++ sepLine ++ "\n"

/-- STEP 2 banner of the script. -/
def step2Header : String :=
  "\n" ++ sepLine ++ "-- STEP 2: Insert has_subtechnique edges (parent to subtechnique)\n"
    ++ sepLine ++ "\n"

/-- STEP 3 banner of the script. -/
def step3Header : String :=
  "\n" ++ sepLine ++ "-- STEP 3: Insert part_of edges (technique/subtechnique to tactic)\n"
    ++ sepLine ++ "\n"

/-- STEP 4 banner of the script. -/
def step4Header : String :=
  sepLine ++ "-- STEP 4: Insert mitigates edges (mitigation to techniques)\n"
    ++ sepLine ++ "\n"

/-- A statement with create-if-not-exists semantics: an
`INSERT VERTEX IF NOT EXISTS …` or an `INSERT EDGE IF NOT EXISTS …`. -/
def createIfNotExists (s : String) : Prop :=
  (∃ r, s = "INSERT VERTEX IF NOT EXISTS " ++ r)
  ∨ (∃ r, s = "INSERT EDGE IF NOT EXISTS " ++ r)

/-- Proof infrastructure: the dedup step of the collector, abstracted from
the relationship scan — keep entries whose code is not in `seen`,
threading the codes of kept entries through `seen`. -/
def dedupSeen : List techniqueInfo → List String → List techniqueInfo
  | [], _ => []
  | e :: es, seen =>
    if seen.contains e.ExternalID then dedupSeen es seen
    else e :: dedupSeen es (e.ExternalID :: seen)

/-- A technique map holding one degenerate record whose internal id is
exactly the type prefix and which has no external references; probes the
external-code fallback. -/
def degenerateTechMap : String → Option attackPattern := fun s =>
  if s = "ap1" then
    some { ID := "attack-pattern--", Name := "Ghost", ExternalRefs := [], KillChain := [] }
  else none

/-!  ## Helper lemmas -/

theorem stringsIndexDot_eq_none_iff (l : List Char) :
    stringsIndexDot l = none ↔ l.contains '.' = false := by
  induction l with
  | nil => simp [stringsIndexDot]
  | cons c cs ih =>
    by_cases h : c = '.'
    · subst h; simp [stringsIndexDot, List.contains_cons]
    · simp [stringsIndexDot, h, Option.map_eq_none', ih, List.contains_cons,
        beq_iff_eq, Ne.symm h]

theorem take_stringsIndexDot (l : List Char) :
    ∀ i, stringsIndexDot l = some i → l.take i = l.takeWhile (fun c => c != '.') := by
  induction l with
  | nil => intro i h; simp [stringsIndexDot] at h
  | cons c cs ih =>
    intro i h
    by_cases hc : c = '.'
    · subst hc
      simp [stringsIndexDot] at h
      subst h
      simp [List.takeWhile]
    · simp [stringsIndexDot, hc] at h
      obtain ⟨j, hj, rfl⟩ := h
      have hb : (c != '.') = true := by simp [hc]
      simp [List.takeWhile, hb, ih j hj]

theorem mk_data_eq (s : String) : String.mk s.data = s := by
  cases s
  rfl

/-!  ## Claims -/

/-- C4: `getParentTechniqueID` returns the substring before the first
separator when the code contains a `.` whose first occurrence is not at
position 0, and returns the code unchanged when there is no `.` or the
first character is the `.`. -/
theorem C4_parent_of (code : String) :
    (code.data.contains '.' = true → code.data.head? ≠ some '.' →
      getParentTechniqueID code = String.mk (code.data.takeWhile (fun c => c != '.')))
    ∧ (code.data.contains '.' = false → getParentTechniqueID code = code)
    ∧ (code.data.head? = some '.' → getParentTechniqueID code = code) := by
  refine ⟨?_, ?_, ?_⟩
  · intro hcont hhead
    cases hdata : code.data with
    | nil => rw [hdata] at hcont; simp at hcont
    | cons c cs =>
      rw [hdata] at hhead
      have hc : c ≠ '.' := by
        intro h
        exact hhead (by simp [h])
      rw [hdata] at hcont
      simp [List.contains_cons, beq_iff_eq] at hcont
      have hcs : '.' ∈ cs := by
        rcases hcont with h1 | h1
        · exact absurd h1.symm hc
        · exact h1
      have hsome : (stringsIndexDot cs).isSome := by
        cases h : stringsIndexDot cs with
        | none =>
          rw [stringsIndexDot_eq_none_iff] at h
          simp at h
          exact absurd hcs h
        | some j => rfl
      obtain ⟨j, hj⟩ := Option.isSome_iff_exists.mp hsome
      unfold getParentTechniqueID
      rw [hdata]
      simp only [stringsIndexDot, beq_iff_eq, hc, if_false, hj, Option.map_some']
      have hb : (c != '.') = true := by simp [hc]
      simp [take_stringsIndexDot cs j hj, List.takeWhile, hb]
  · intro hcont
    unfold getParentTechniqueID
    rw [(stringsIndexDot_eq_none_iff code.data).mpr hcont]
  · intro hhead
    cases hdata : code.data with
    | nil => rw [hdata] at hhead; simp at hhead
    | cons c cs =>
      rw [hdata] at hhead
      simp at hhead
      unfold getParentTechniqueID
      rw [hdata]
      simp [stringsIndexDot, hhead]

/-- Witness for C4 at concrete codes: `T1071.001` has its first separator
at a positive index and maps to `T1071`; `T1071` has none and is returned
unchanged; `.001` starts with the separator and is returned unchanged. -/
theorem C4_parent_of_witness :
    getParentTechniqueID "T1071.001" = "T1071"
    ∧ getParentTechniqueID "T1071" = "T1071"
    ∧ getParentTechniqueID ".001" = ".001" := by
  refine ⟨?_, ?_, ?_⟩
  · have h := (C4_parent_of "T1071.001").1 (by decide) (by decide)
    rw [h]; decide
  · exact (C4_parent_of "T1071").2.1 (by decide)
  · exact (C4_parent_of ".001").2.2 (by decide)

/-- C10: a missing code beginning with the separator counts as a
sub-technique, is its own parent, and the hierarchy phase therefore emits
a self-loop edge for it rather than omitting the edge. -/
theorem C10_selfloop_edge (ts : List techniqueInfo) (missing : List String)
    (t : techniqueInfo) (h1 : t ∈ ts) (h2 : missing.contains t.ExternalID = true)
    (h3 : t.ExternalID.data.head? = some '.') :
    isSubtechnique t.ExternalID = true
    ∧ getParentTechniqueID t.ExternalID = t.ExternalID
    ∧ subtechEdgeStmt t.ExternalID t.ExternalID ∈ step2Stmts ts missing := by
  have hsub : isSubtechnique t.ExternalID = true := by
    unfold isSubtechnique
    cases hdata : t.ExternalID.data with
    | nil => rw [hdata] at h3; simp at h3
    | cons c cs =>
      rw [hdata] at h3
      simp at h3
      simp [List.contains_cons, h3]
  have hpar : getParentTechniqueID t.ExternalID = t.ExternalID :=
    (C4_parent_of t.ExternalID).2.2 h3
  have hpred : (missing.contains t.ExternalID && isSubtechnique t.ExternalID) = true := by
    rw [h2, hsub]; rfl
  refine ⟨hsub, hpar, ?_⟩
  unfold step2Stmts
  rw [show subtechEdgeStmt t.ExternalID t.ExternalID
        = subtechEdgeStmt (getParentTechniqueID t.ExternalID) t.ExternalID from by rw [hpar]]
  apply List.mem_map_of_mem
  exact List.mem_filter.mpr ⟨h1, hpred⟩

/-- Witness for C10: the code `.001` in the missing set yields the
self-loop statement `".001"->".001"`. -/
theorem C10_selfloop_edge_witness :
    subtechEdgeStmt ".001" ".001"
      ∈ step2Stmts [⟨".001", "Odd", []⟩] [".001"] :=
  (C10_selfloop_edge [⟨".001", "Odd", []⟩] [".001"] ⟨".001", "Odd", []⟩
    (by simp) (by decide) (by decide)).2.2

/-- C5: for a missing sub-technique the hierarchy phase emits the edge
from `getParentTechniqueID code` to `code` with no hypothesis about the
parent (neither that its node exists nor that it is itself missing), and
the phase holds exactly one statement per missing sub-technique of the
resolved list. -/
theorem C5_hierarchy_edge (ts : List techniqueInfo) (missing : List String)
    (t : techniqueInfo) (h1 : t ∈ ts) (h2 : missing.contains t.ExternalID = true)
    (h3 : isSubtechnique t.ExternalID = true) :
    subtechEdgeStmt (getParentTechniqueID t.ExternalID) t.ExternalID
      ∈ step2Stmts ts missing
    ∧ (step2Stmts ts missing).length =
        (ts.filter (fun x => missing.contains x.ExternalID
          && isSubtechnique x.ExternalID)).length := by
  have hpred : (missing.contains t.ExternalID && isSubtechnique t.ExternalID) = true := by
    rw [h2, h3]; rfl
  constructor
  · apply List.mem_map_of_mem
    exact List.mem_filter.mpr ⟨h1, hpred⟩
  · simp [step2Stmts]

/-- Witness for C5: `T1071.001` is missing while its parent `T1071` is
not in the missing set, yet the edge `T1071 → T1071.001` is in the
hierarchy phase. -/
theorem C5_hierarchy_edge_witness :
    (["T1071.001"].contains "T1071" = false)
    ∧ subtechEdgeStmt (getParentTechniqueID "T1071.001") "T1071.001"
        ∈ step2Stmts [⟨"T1071.001", "Web Protocols", []⟩] ["T1071.001"] :=
  ⟨by decide,
   (C5_hierarchy_edge [⟨"T1071.001", "Web Protocols", []⟩] ["T1071.001"]
      ⟨"T1071.001", "Web Protocols", []⟩ (by simp) (by decide) (by decide)).1⟩

theorem lookup_eq_none_of_contains_keys_eq_false {β : Type} (l : List (String × β))
    (a : String) (h : (l.map Prod.fst).contains a = false) : l.lookup a = none := by
  induction l with
  | nil => rfl
  | cons p rest ih =>
    obtain ⟨k, v⟩ := p
    rw [List.map_cons, List.contains_cons] at h
    have h1 : (a == k) = false := by
      cases hb : (a == k)
      · rfl
      · rw [hb] at h; simp at h
    have h2 : (List.map Prod.fst rest).contains a = false := by
      cases hc : (List.map Prod.fst rest).contains a
      · rfl
      · rw [hc] at h; simp at h
    simp [List.lookup_cons, h1, ih h2]

/-- C6: the category table is a fixed closed map of exactly 14 entries,
each known phase name looks up to its non-empty tactic code, any phase
name outside the table looks up to `none`, and a technique all of whose
phases are outside the table contributes no `part_of` edge (lookup is a
total function into `Option`, so no error can arise). -/
theorem C6_category_table :
    tacticPhaseTable.length = 14
    ∧ (∀ p ∈ tacticPhaseTable, tacticPhaseToID p.1 = some p.2 ∧ p.2 ≠ "")
    ∧ (∀ phase : String, (tacticPhaseTable.map Prod.fst).contains phase = false →
        tacticPhaseToID phase = none)
    ∧ (∀ t : techniqueInfo, (∀ ph ∈ t.Tactics, tacticPhaseToID ph = none) →
        tacticEdgesFor t = []) := by
  refine ⟨rfl, by decide, ?_, ?_⟩
  · intro phase h
    exact lookup_eq_none_of_contains_keys_eq_false tacticPhaseTable phase h
  · intro t h
    rw [tacticEdgesFor, List.filterMap_eq_nil_iff]
    intro ph hph
    rw [h ph hph]
    rfl

/-- Witness for C6: `command-and-control` maps to `TA0011`, while the
unknown phase name `bogus-phase` maps to nothing and generates no edge. -/
theorem C6_category_table_witness :
    tacticPhaseToID "bogus-phase" = none
    ∧ tacticEdgesFor ⟨"T1071", "App Layer", ["bogus-phase"]⟩ = []
    ∧ tacticPhaseToID "command-and-control" = some "TA0011" := by
  refine ⟨C6_category_table.2.2.1 "bogus-phase" (by decide),
    C6_category_table.2.2.2 ⟨"T1071", "App Layer", ["bogus-phase"]⟩ ?_, by decide⟩
  intro ph hph
  rw [List.mem_singleton.mp hph]
  exact C6_category_table.2.2.1 "bogus-phase" (by decide)

/-- C2: when the oracle reports every resolved code as already existing,
the missing set is empty and the plan consists of the mitigation-edge
refresh phase alone — a re-run after a successful sync re-asserts only
the idempotent `mitigates` edges. -/
theorem C2_resync_noop (m : String) (ts : List techniqueInfo) (ids found : List String)
    (h : ∀ id ∈ ids, found.contains id = true) :
    findMissingTechniques ids found = []
    ∧ step1Stmts ts (findMissingTechniques ids found) = []
    ∧ step2Stmts ts (findMissingTechniques ids found) = []
    ∧ step3Stmts ts (findMissingTechniques ids found) = []
    ∧ planStatements m ts (findMissingTechniques ids found) = step4Stmts m ts := by
  have hmiss : findMissingTechniques ids found = [] := by
    rw [findMissingTechniques, List.filter_eq_nil_iff]
    intro id hid
    simpa using h id hid
  have h1 : step1Stmts ts [] = [] := by simp [step1Stmts]
  have h2 : step2Stmts ts [] = [] := by simp [step2Stmts]
  have h3 : step3Stmts ts [] = [] := by simp [step3Stmts]
  rw [hmiss]
  exact ⟨rfl, h1, h2, h3, by rw [planStatements, h1, h2, h3]; rfl⟩

/-- Witness for C2: all three resolved codes exist, so the plan is just
the three `mitigates` edges. -/
theorem C2_resync_noop_witness :
    findMissingTechniques ["T1071", "T1565", "T1573"] ["T1071", "T1565", "T1573"] = []
    ∧ planStatements "M1037"
        [⟨"T1071", "A", []⟩, ⟨"T1565", "B", []⟩, ⟨"T1573", "C", []⟩]
        (findMissingTechniques ["T1071", "T1565", "T1573"] ["T1071", "T1565", "T1573"])
      = step4Stmts "M1037"
          [⟨"T1071", "A", []⟩, ⟨"T1565", "B", []⟩, ⟨"T1573", "C", []⟩] := by
  have h := C2_resync_noop "M1037"
    [⟨"T1071", "A", []⟩, ⟨"T1565", "B", []⟩, ⟨"T1573", "C", []⟩]
    ["T1071", "T1565", "T1573"] ["T1071", "T1565", "T1573"] (by decide)
  exact ⟨h.1, h.2.2.2.2⟩

/-- C7 counterexample: a course-of-action record whose STIX id is the
empty string (accepted by the lenient parser) and whose tagged code and
name match the query makes both lookup loops set `chosenMitSTIXID = ""`,
which the program then takes for NotFound (`if chosenMitSTIXID == ""`)
although one countermeasure matches — so "fails with NotFound iff zero
countermeasures match" is false of the program as stated. -/
theorem C7_counterexample :
    resolveByID
        [("", { ID := "", Name := "Filter Network Traffic",
                ExternalRefs := [{ SourceName := "mitre-attack",
                                   ExternalID := "M1037", URL := "" }] })]
        "M1037" = ""
    ∧ (∃ p ∈ [(("" : String),
          ({ ID := "", Name := "Filter Network Traffic",
             ExternalRefs := [{ SourceName := "mitre-attack",
                                ExternalID := "M1037", URL := "" }] } : courseOfAction))],
        ∃ ext, externalID p.2.ExternalRefs = some ext ∧ goEqualFold ext "M1037" = true)
    ∧ resolveByName
        [("", { ID := "", Name := "Filter Network Traffic",
                ExternalRefs := [{ SourceName := "mitre-attack",
                                   ExternalID := "M1037", URL := "" }] })]
        "Filter Network Traffic" = ""
    ∧ (∃ p ∈ [(("" : String),
          ({ ID := "", Name := "Filter Network Traffic",
             ExternalRefs := [{ SourceName := "mitre-attack",
                                ExternalID := "M1037", URL := "" }] } : courseOfAction))],
        goEqualFold p.2.Name (goTrimSpace "Filter Network Traffic") = true) := by
  refine ⟨by decide, ⟨_, List.mem_singleton.mpr rfl, "M1037", by decide, by decide⟩,
    by decide, ⟨_, List.mem_singleton.mpr rfl, by decide⟩⟩

/-- C7 amended: provided every countermeasure's internal STIX id is
non-empty, the resolver (the `chosenMitSTIXID` value, with `""` the
NotFound sentinel) succeeds by code exactly when some mitigation's
catalogue-tagged external code matches the query case-insensitively
(`externalID` only looks at `mitre-attack`-tagged references, so foreign
numbering schemes are ignored), succeeds by name exactly when some
mitigation name matches the whitespace-trimmed query case-insensitively,
and reports NotFound iff zero mitigations match; a matching record keyed
by the empty id collapses into the sentinel and is reported NotFound. -/
theorem C7_resolver (mitMap : List (String × courseOfAction)) (mitID mitName : String)
    (hne : ∀ p ∈ mitMap, p.1 ≠ "") :
    (resolveByID mitMap mitID ≠ "" ↔
      ∃ p ∈ mitMap, ∃ ext, externalID p.2.ExternalRefs = some ext
        ∧ goEqualFold ext mitID = true)
    ∧ (resolveByName mitMap mitName ≠ "" ↔
      ∃ p ∈ mitMap, goEqualFold p.2.Name (goTrimSpace mitName) = true)
    ∧ (resolveByID mitMap mitID = "" ↔
      ¬ ∃ p ∈ mitMap, ∃ ext, externalID p.2.ExternalRefs = some ext
        ∧ goEqualFold ext mitID = true)
    ∧ (resolveByName mitMap mitName = "" ↔
      ¬ ∃ p ∈ mitMap, goEqualFold p.2.Name (goTrimSpace mitName) = true) := by
  have hpredID : ∀ p : String × courseOfAction,
      ((match externalID p.2.ExternalRefs with
        | some ext => goEqualFold ext mitID
        | none => false) = true)
      ↔ ∃ ext, externalID p.2.ExternalRefs = some ext ∧ goEqualFold ext mitID = true := by
    intro p
    cases h : externalID p.2.ExternalRefs <;> simp [h]
  have hfound : ∀ (pr : (String × courseOfAction) → Bool),
      ((match mitMap.find? pr with
        | some p => p.1
        | none => "") ≠ "")
      ↔ ∃ x ∈ mitMap, pr x = true := by
    intro pr
    cases hf : mitMap.find? pr with
    | none =>
      constructor
      · intro h
        exact absurd rfl h
      · rintro ⟨x, hx, hpx⟩
        rw [List.find?_eq_none] at hf
        exact absurd hpx (hf x hx)
    | some p =>
      constructor
      · intro _
        exact ⟨p, List.mem_of_find?_eq_some hf, List.find?_some hf⟩
      · intro _
        exact hne p (List.mem_of_find?_eq_some hf)
  have hid : resolveByID mitMap mitID ≠ "" ↔
      ∃ p ∈ mitMap, ∃ ext, externalID p.2.ExternalRefs = some ext
        ∧ goEqualFold ext mitID = true := by
    rw [resolveByID]
    exact (hfound _).trans
      ⟨fun ⟨x, hx, hp⟩ => ⟨x, hx, (hpredID x).mp hp⟩,
       fun ⟨x, hx, hp⟩ => ⟨x, hx, (hpredID x).mpr hp⟩⟩
  have hname : resolveByName mitMap mitName ≠ "" ↔
      ∃ p ∈ mitMap, goEqualFold p.2.Name (goTrimSpace mitName) = true := by
    rw [resolveByName]
    exact hfound _
  refine ⟨hid, hname, ?_, ?_⟩
  · rw [← not_ne_iff]
    exact not_congr hid
  · rw [← not_ne_iff]
    exact not_congr hname

/-- Witness for the amended C7: a concrete bundle with a non-empty STIX
id resolves its code query to a found (non-sentinel) id. -/
theorem C7_resolver_witness :
    resolveByID
        [("course-of-action--1",
          { ID := "course-of-action--1", Name := "Filter Network Traffic",
            ExternalRefs := [{ SourceName := "mitre-attack",
                               ExternalID := "M1037", URL := "" }] })]
        "m1037" ≠ "" :=
  ((C7_resolver
      [("course-of-action--1",
        { ID := "course-of-action--1", Name := "Filter Network Traffic",
          ExternalRefs := [{ SourceName := "mitre-attack",
                             ExternalID := "M1037", URL := "" }] })]
      "m1037" "Filter Network Traffic" (by decide)).1).mpr
    ⟨_, List.mem_singleton.mpr rfl, "M1037", by decide, by decide⟩

/-!  ## The four-phase decomposition of the generated script -/

theorem joinLines_append (a b : List String) :
    joinLines (a ++ b) = joinLines a ++ joinLines b := by
  induction a with
  | nil => simp [joinLines]
  | cons s rest ih => simp [joinLines, ih, String.append_assoc]

theorem foldl_write_filter (p : techniqueInfo → Bool) (f : techniqueInfo → String) :
    ∀ (ts : List techniqueInfo) (acc : String),
      ts.foldl (fun b t => if p t then b ++ f t ++ "\n" else b) acc
        = acc ++ joinLines ((ts.filter p).map f) := by
  intro ts
  induction ts with
  | nil => intro acc; simp [joinLines]
  | cons t rest ih =>
    intro acc
    simp only [List.foldl_cons]
    by_cases h : p t
    · rw [if_pos h, ih]
      have hf : List.filter p (t :: rest) = t :: List.filter p rest := by
        simp [List.filter_cons, h]
      rw [hf]
      simp [joinLines, String.append_assoc]
    · rw [if_neg h, ih]
      have hf : List.filter p (t :: rest) = List.filter p rest := by
        simp [List.filter_cons, h]
      rw [hf]

theorem foldl_write_filter2 (p q : techniqueInfo → Bool) (f : techniqueInfo → String) :
    ∀ (ts : List techniqueInfo) (acc : String),
      ts.foldl (fun b t => if p t then (if q t then b ++ f t ++ "\n" else b) else b) acc
        = acc ++ joinLines ((ts.filter (fun t => p t && q t)).map f) := by
  intro ts
  induction ts with
  | nil => intro acc; simp [joinLines]
  | cons t rest ih =>
    intro acc
    simp only [List.foldl_cons]
    by_cases hp : p t
    · by_cases hq : q t
      · rw [if_pos hp, if_pos hq, ih]
        have hf : List.filter (fun t => p t && q t) (t :: rest)
            = t :: List.filter (fun t => p t && q t) rest := by
          simp [List.filter_cons, hp, hq]
        rw [hf]
        simp [joinLines, String.append_assoc]
      · rw [if_pos hp, if_neg hq, ih]
        have hf : List.filter (fun t => p t && q t) (t :: rest)
            = List.filter (fun t => p t && q t) rest := by
          simp [List.filter_cons, hp, hq]
        rw [hf]
    · rw [if_neg hp, ih]
      have hf : List.filter (fun t => p t && q t) (t :: rest)
          = List.filter (fun t => p t && q t) rest := by
        simp [List.filter_cons, hp]
      rw [hf]

theorem foldl_write_all (f : techniqueInfo → String) :
    ∀ (ts : List techniqueInfo) (acc : String),
      ts.foldl (fun b t => b ++ f t ++ "\n") acc = acc ++ joinLines (ts.map f) := by
  intro ts
  induction ts with
  | nil => intro acc; simp [joinLines]
  | cons t rest ih =>
    intro acc
    simp only [List.foldl_cons]
    rw [ih]
    simp [joinLines, String.append_assoc]

theorem foldl_write_tactics (ext : String) :
    ∀ (phs : List String) (acc : String),
      phs.foldl (fun b2 phase =>
        match tacticPhaseToID phase with
        | some tacticID => b2 ++ partOfEdgeStmt ext tacticID ++ "\n"
        | none => b2) acc
      = acc ++ joinLines (phs.filterMap (fun phase =>
          (tacticPhaseToID phase).map (fun tacticID => partOfEdgeStmt ext tacticID))) := by
  intro phs
  induction phs with
  | nil => intro acc; simp [joinLines]
  | cons ph rest ih =>
    intro acc
    simp only [List.foldl_cons]
    cases h : tacticPhaseToID ph with
    | none =>
      rw [ih]
      simp [List.filterMap_cons, h]
    | some tid =>
      rw [ih]
      simp [List.filterMap_cons, h, joinLines, String.append_assoc]

theorem foldl_write_step3 (p : techniqueInfo → Bool) :
    ∀ (ts : List techniqueInfo) (acc : String),
      ts.foldl (fun b t =>
        if p t then
          t.Tactics.foldl (fun b2 phase =>
            match tacticPhaseToID phase with
            | some tacticID => b2 ++ partOfEdgeStmt t.ExternalID tacticID ++ "\n"
            | none => b2) b
        else b) acc
      = acc ++ joinLines ((ts.filter p).flatMap tacticEdgesFor) := by
  intro ts
  induction ts with
  | nil => intro acc; simp [joinLines]
  | cons t rest ih =>
    intro acc
    simp only [List.foldl_cons]
    by_cases h : p t
    · rw [if_pos h, foldl_write_tactics t.ExternalID t.Tactics acc, ih]
      have hf : List.filter p (t :: rest) = t :: List.filter p rest := by
        simp [List.filter_cons, h]
      rw [hf, List.flatMap_cons, joinLines_append]
      rw [tacticEdgesFor, String.append_assoc]
    · rw [if_neg h, ih]
      have hf : List.filter p (t :: rest) = List.filter p rest := by
        simp [List.filter_cons, h]
      rw [hf]

theorem insertTechniqueStmt_shape (t : techniqueInfo) :
    createIfNotExists (insertTechniqueStmt t) := by
  left
  refine ⟨"tMitreTechnique(Technique_ID, Technique_Name, Mitre_Attack_Version, rcelpe, priority, execution_min, execution_max) VALUES "
    ++ quoteID t.ExternalID ++ ":(" ++ quoteLiteral t.ExternalID ++ ", "
    ++ quoteLiteral t.Name ++ ", \"18.0\", false, 4, 0.1667, 120);", ?_⟩
  rfl

theorem subtechEdgeStmt_shape (parentID childID : String) :
    createIfNotExists (subtechEdgeStmt parentID childID) := by
  right
  refine ⟨"has_subtechnique VALUES " ++ quoteID parentID ++ "->" ++ quoteID childID
    ++ "@0:();", ?_⟩
  rfl

theorem partOfEdgeStmt_shape (techID tacticID : String) :
    createIfNotExists (partOfEdgeStmt techID tacticID) := by
  right
  refine ⟨"part_of VALUES " ++ quoteID techID ++ "->" ++ quoteID tacticID ++ "@0:();", ?_⟩
  rfl

theorem mitigatesEdgeStmt_shape (mitigationID techID : String) :
    createIfNotExists (mitigatesEdgeStmt mitigationID techID) := by
  right
  refine ⟨"mitigates VALUES " ++ quoteID mitigationID ++ "->" ++ quoteID techID
    ++ "@0:(NULL, \"Enterprise\");", ?_⟩
  rfl

/-- C1: the generated script decomposes into the four phases in the fixed
order — missing-node inserts, hierarchy edges, category edges, then
mitigation edges (the first three blocks present exactly when the missing
set is non-empty) —, the fourth phase holds exactly one `mitigates` edge
statement per technique of the whole resolved list (not only the missing
ones), and every statement of the plan uses create-if-not-exists
semantics. -/
theorem C1_plan_phases (mitigationID mitigationName : String)
    (techniques : List techniqueInfo) (missingTechniques : List String) :
    generateNGQL mitigationID mitigationName techniques missingTechniques
      = scriptHeader mitigationID mitigationName
        ++ (if missingTechniques.length > 0 then
              step1Header ++ joinLines (step1Stmts techniques missingTechniques)
              ++ step2Header ++ joinLines (step2Stmts techniques missingTechniques)
              ++ step3Header ++ joinLines (step3Stmts techniques missingTechniques) ++ "\n"
            else "")
        ++ step4Header ++ joinLines (step4Stmts mitigationID techniques)
        ++ verifyFooter mitigationID techniques
    ∧ step4Stmts mitigationID techniques
        = techniques.map (fun t => mitigatesEdgeStmt mitigationID t.ExternalID)
    ∧ ∀ s ∈ planStatements mitigationID techniques missingTechniques,
        createIfNotExists s := by
  refine ⟨?_, rfl, ?_⟩
  · simp only [generateNGQL]
    by_cases hm : missingTechniques.length > 0
    · rw [if_pos hm, if_pos hm]
      rw [foldl_write_filter (fun t => missingTechniques.contains t.ExternalID)
            insertTechniqueStmt techniques]
      rw [foldl_write_filter2 (fun t => missingTechniques.contains t.ExternalID)
            (fun t => isSubtechnique t.ExternalID)
            (fun t => subtechEdgeStmt (getParentTechniqueID t.ExternalID) t.ExternalID)
            techniques]
      rw [foldl_write_step3 (fun t => missingTechniques.contains t.ExternalID) techniques]
      rw [foldl_write_all (fun t => mitigatesEdgeStmt mitigationID t.ExternalID) techniques]
      simp only [step1Stmts, step2Stmts, step3Stmts, step4Stmts,
        step1Header, step2Header, step3Header, step4Header, String.append_assoc]
    · rw [if_neg hm, if_neg hm]
      rw [foldl_write_all (fun t => mitigatesEdgeStmt mitigationID t.ExternalID) techniques]
      simp only [step4Stmts, step4Header, String.append_empty, String.append_assoc]
  · intro s hs
    rw [planStatements] at hs
    rcases List.mem_append.mp hs with hs | hs4
    · rcases List.mem_append.mp hs with hs | hs3
      · rcases List.mem_append.mp hs with hs1 | hs2
        · obtain ⟨t, -, rfl⟩ := List.mem_map.mp hs1
          exact insertTechniqueStmt_shape t
        · obtain ⟨t, -, rfl⟩ := List.mem_map.mp hs2
          exact subtechEdgeStmt_shape _ _
      · obtain ⟨t, -, hmem⟩ := List.mem_flatMap.mp hs3
        rw [tacticEdgesFor] at hmem
        obtain ⟨ph, -, hsome⟩ := List.mem_filterMap.mp hmem
        cases hod : tacticPhaseToID ph with
        | none => rw [hod] at hsome; simp at hsome
        | some tid =>
          rw [hod] at hsome
          simp at hsome
          rw [← hsome]
          exact partOfEdgeStmt_shape _ _
    · obtain ⟨t, -, rfl⟩ := List.mem_map.mp hs4
      exact mitigatesEdgeStmt_shape _ _

/-- Witness for C1: a concrete plan statement is a
create-if-not-exists statement. -/
theorem C1_plan_phases_witness :
    createIfNotExists (mitigatesEdgeStmt "M1037" "T1071") :=
  (C1_plan_phases "M1037" "Filter Network Traffic" [⟨"T1071", "App Layer", []⟩] []).2.2
    (mitigatesEdgeStmt "M1037" "T1071")
    (by simp [planStatements, step1Stmts, step2Stmts, step3Stmts, step4Stmts])

/-!  ## Relating the collector loop to the spec-level dedup -/

theorem collectLoop_eq_dedupSeen (techMap : String → Option attackPattern)
    (chosen : String) :
    ∀ (rels : List relationship) (seen : List String),
      collectLoop techMap chosen rels seen
        = dedupSeen (rawMitigatedEntries techMap chosen rels) seen := by
  intro rels
  induction rels with
  | nil => intro seen; rfl
  | cons r rest ih =>
    intro seen
    simp only [collectLoop]
    by_cases hT : r.RelationshipType = "mitigates"
    · rw [if_neg (by simp [hT])]
      by_cases hS : r.SourceRef = chosen
      · rw [if_neg (by simp [hS])]
        rw [show rawMitigatedEntries techMap chosen (r :: rest)
              = (match techMap r.TargetRef with
                 | some tp => entryOf tp :: rawMitigatedEntries techMap chosen rest
                 | none => rawMitigatedEntries techMap chosen rest) from by
          rw [rawMitigatedEntries, if_pos (by simp [hT, hS])]]
        cases hM : techMap r.TargetRef with
        | none => exact ih seen
        | some tp =>
          simp only [dedupSeen]
          by_cases hseen : (entryOf tp).ExternalID ∈ seen
          · rw [if_pos (by simpa using hseen), if_pos (by simpa using hseen)]
            exact ih seen
          · rw [if_neg (by simpa using hseen), if_neg (by simpa using hseen)]
            rw [ih ((entryOf tp).ExternalID :: seen)]
      · rw [if_pos hS]
        rw [show rawMitigatedEntries techMap chosen (r :: rest)
              = rawMitigatedEntries techMap chosen rest from by
          rw [rawMitigatedEntries, if_neg (by simp [hS])]]
        exact ih seen
    · rw [if_pos hT]
      rw [show rawMitigatedEntries techMap chosen (r :: rest)
            = rawMitigatedEntries techMap chosen rest from by
        rw [rawMitigatedEntries, if_neg (by simp [hT])]]
      exact ih seen

theorem dedupSeen_eq_dedupFirstByCode :
    ∀ (l : List techniqueInfo) (seen : List String),
      dedupSeen l seen
        = dedupFirstByCode (l.filter (fun e => !(seen.contains e.ExternalID))) := by
  intro l
  induction l with
  | nil => intro seen; simp [dedupSeen, dedupFirstByCode]
  | cons e es ih =>
    intro seen
    by_cases hmem : e.ExternalID ∈ seen
    · rw [dedupSeen, if_pos (by simpa using hmem)]
      rw [show (e :: es).filter (fun x => !(seen.contains x.ExternalID))
            = es.filter (fun x => !(seen.contains x.ExternalID)) from by
        simp [List.filter_cons, hmem]]
      exact ih seen
    · rw [dedupSeen, if_neg (by simpa using hmem)]
      rw [show (e :: es).filter (fun x => !(seen.contains x.ExternalID))
            = e :: es.filter (fun x => !(seen.contains x.ExternalID)) from by
        simp [List.filter_cons, hmem]]
      rw [dedupFirstByCode, List.filter_filter]
      rw [ih (e.ExternalID :: seen)]
      rw [show es.filter (fun x => !((e.ExternalID :: seen).contains x.ExternalID))
            = es.filter (fun a =>
                a.ExternalID != e.ExternalID && !(seen.contains a.ExternalID)) from by
        apply List.filter_congr
        intro x _
        simp only [List.contains_cons, Bool.not_or, bne]]

theorem dedupSeen_nodup :
    ∀ (l : List techniqueInfo) (seen : List String),
      ((dedupSeen l seen).map (fun t => t.ExternalID)).Nodup
      ∧ ∀ c ∈ (dedupSeen l seen).map (fun t => t.ExternalID), c ∉ seen := by
  intro l
  induction l with
  | nil => intro seen; simp [dedupSeen]
  | cons e es ih =>
    intro seen
    by_cases hmem : e.ExternalID ∈ seen
    · rw [dedupSeen, if_pos (by simpa using hmem)]
      exact ih seen
    · rw [dedupSeen, if_neg (by simpa using hmem)]
      obtain ⟨ihnodup, ihseen⟩ := ih (e.ExternalID :: seen)
      constructor
      · rw [List.map_cons, List.nodup_cons]
        refine ⟨fun hmm => ?_, ihnodup⟩
        exact (ihseen _ hmm) (List.mem_cons_self _ _)
      · intro c hc
        rw [List.map_cons] at hc
        rcases List.mem_cons.mp hc with rfl | hc
        · exact hmem
        · exact fun hcs => (ihseen _ hc) (List.mem_cons_of_mem _ hcs)

theorem dedupSeen_subset :
    ∀ (l : List techniqueInfo) (seen : List String), dedupSeen l seen ⊆ l := by
  intro l
  induction l with
  | nil =>
    intro seen x hx
    simp [dedupSeen] at hx
  | cons e es ih =>
    intro seen x hx
    by_cases hmem : e.ExternalID ∈ seen
    · rw [dedupSeen, if_pos (by simpa using hmem)] at hx
      exact List.mem_cons_of_mem _ (ih seen hx)
    · rw [dedupSeen, if_neg (by simpa using hmem)] at hx
      rcases List.mem_cons.mp hx with rfl | hx
      · exact List.mem_cons_self _ _
      · exact List.mem_cons_of_mem _ (ih _ hx)

theorem collectLoop_eq_spec (techMap : String → Option attackPattern)
    (chosen : String) (rels : List relationship) :
    collectLoop techMap chosen rels []
      = dedupFirstByCode (rawMitigatedEntries techMap chosen rels) := by
  rw [collectLoop_eq_dedupSeen, dedupSeen_eq_dedupFirstByCode]
  congr 1
  rw [List.filter_eq_self]
  intro a _
  simp [List.contains]

/-- C3: the collector output has pairwise strictly ascending external
codes under plain lexicographic string comparison (hence no duplicate
codes), and is a permutation of the first-occurrence-wins deduplication of
the raw relationship scan — each kept entry is the first one bearing its
code, later duplicates are dropped. -/
theorem C3_collector (techMap : String → Option attackPattern) (chosen : String)
    (rels : List relationship) :
    List.Pairwise (fun a b => a.ExternalID < b.ExternalID)
      (collectTechniques techMap chosen rels)
    ∧ (collectTechniques techMap chosen rels).Perm
        (dedupFirstByCode (rawMitigatedEntries techMap chosen rels)) := by
  have hperm0 : (collectTechniques techMap chosen rels).Perm
      (collectLoop techMap chosen rels []) := List.mergeSort_perm _ _
  have hsorted := @List.sorted_mergeSort techniqueInfo
    (fun a b : techniqueInfo => decide (a.ExternalID ≤ b.ExternalID))
    (fun a b c hab hbc => by
      rw [decide_eq_true_iff] at hab hbc ⊢
      exact le_trans hab hbc)
    (fun a b => by
      rcases le_total a.ExternalID b.ExternalID with h | h <;> simp [h])
    (collectLoop techMap chosen rels [])
  have hle : List.Pairwise (fun a b : techniqueInfo => a.ExternalID ≤ b.ExternalID)
      (collectTechniques techMap chosen rels) := by
    refine hsorted.imp ?_
    intro a b hab
    exact decide_eq_true_iff.mp hab
  have hnodup0 : ((collectLoop techMap chosen rels []).map
      (fun t => t.ExternalID)).Nodup := by
    rw [collectLoop_eq_dedupSeen]
    exact (dedupSeen_nodup _ _).1
  have hnodup : ((collectTechniques techMap chosen rels).map
      (fun t => t.ExternalID)).Nodup :=
    ((hperm0.map (fun t => t.ExternalID)).symm).nodup hnodup0
  have hne : List.Pairwise (fun a b : techniqueInfo => a.ExternalID ≠ b.ExternalID)
      (collectTechniques techMap chosen rels) := List.pairwise_map.mp hnodup
  refine ⟨?_, ?_⟩
  · exact (hle.and hne).imp (fun h => lt_of_le_of_ne h.1 h.2)
  · rw [← collectLoop_eq_spec techMap chosen rels]
    exact hperm0

/-!  ## Statement text format (C8) -/

theorem hexDigitChar_ne_newline (k : Nat) (hk : k < 16) : hexDigitChar k ≠ '\n' := by
  interval_cases k <;> decide

theorem goQuoteChar_no_newline (c : Char) : '\n' ∉ goQuoteChar c := by
  unfold goQuoteChar
  split_ifs with h1 h2 h3 h4 h5 h6 h7 h8 h9 h10
  · rcases h1 with rfl | rfl <;> decide
  · intro hmem
    rw [List.mem_singleton] at hmem
    rw [← hmem] at h2
    exact absurd h2.1 (by decide)
  · subst h3; decide
  · subst h4; decide
  · subst h5; decide
  · subst h6; decide
  · subst h7; decide
  · subst h8; decide
  · subst h9; decide
  · intro hmem
    rcases List.mem_cons.mp hmem with h | hmem
    · exact absurd h (by decide)
    rcases List.mem_cons.mp hmem with h | hmem
    · exact absurd h (by decide)
    rcases List.mem_cons.mp hmem with h | hmem
    · exact absurd h.symm (hexDigitChar_ne_newline _ (Nat.mod_lt _ (by decide)))
    rcases List.mem_cons.mp hmem with h | hmem
    · exact absurd h.symm (hexDigitChar_ne_newline _ (Nat.mod_lt _ (by decide)))
    · simp at hmem
  · intro hmem
    rw [List.mem_singleton] at hmem
    exact h10 (Or.inl (by rw [← hmem]; decide))

theorem quoteLiteral_no_newline (s : String) : '\n' ∉ (quoteLiteral s).data := by
  rw [quoteLiteral]
  intro h
  rcases List.mem_cons.mp h with h | h
  · exact absurd h (by decide)
  rcases List.mem_append.mp h with h | h
  · obtain ⟨c, -, hc⟩ := List.mem_flatMap.mp h
    exact goQuoteChar_no_newline c hc
  · exact absurd (List.mem_singleton.mp h) (by decide)

theorem quoteID_no_newline (s : String) (hs : '\n' ∉ s.data) :
    '\n' ∉ (quoteID s).data := by
  rw [quoteID]
  intro h
  rcases List.mem_cons.mp h with h | h
  · exact absurd h (by decide)
  rcases List.mem_append.mp h with h | h
  · obtain ⟨c, hcs, hc⟩ := List.mem_flatMap.mp h
    by_cases hq : c = '"'
    · rw [if_pos hq] at hc
      rcases List.mem_cons.mp hc with h | h
      · exact absurd h (by decide)
      · exact absurd (List.mem_singleton.mp h) (by decide)
    · rw [if_neg hq] at hc
      rw [← List.mem_singleton.mp hc] at hcs
      exact hs hcs
  · exact absurd (List.mem_singleton.mp h) (by decide)

theorem getParent_no_newline (s : String) (hs : '\n' ∉ s.data) :
    '\n' ∉ (getParentTechniqueID s).data := by
  unfold getParentTechniqueID
  cases h : stringsIndexDot s.data with
  | none => exact hs
  | some idx =>
    show '\n' ∉ (if 0 < idx then String.mk (s.data.take idx) else s).data
    by_cases hp : 0 < idx
    · rw [if_pos hp]
      intro hmem
      exact hs (List.take_subset idx s.data hmem)
    · rw [if_neg hp]
      exact hs

theorem newline_not_mem_append (a b : String) (ha : '\n' ∉ a.data)
    (hb : '\n' ∉ b.data) : '\n' ∉ (a ++ b).data := by
  rw [String.data_append]
  intro h
  rcases List.mem_append.mp h with h | h
  · exact ha h
  · exact hb h

theorem insertTechniqueStmt_no_newline (t : techniqueInfo)
    (hext : '\n' ∉ t.ExternalID.data) : '\n' ∉ (insertTechniqueStmt t).data := by
  rw [insertTechniqueStmt]
  exact newline_not_mem_append _ _ (newline_not_mem_append _ _ (newline_not_mem_append _ _
    (newline_not_mem_append _ _ (newline_not_mem_append _ _ (newline_not_mem_append _ _
      (by decide) (quoteID_no_newline _ hext)) (by decide)) (quoteLiteral_no_newline _))
    (by decide)) (quoteLiteral_no_newline _)) (by decide)

theorem subtechEdgeStmt_no_newline (p c : String) (hp : '\n' ∉ p.data)
    (hc : '\n' ∉ c.data) : '\n' ∉ (subtechEdgeStmt p c).data := by
  rw [subtechEdgeStmt]
  exact newline_not_mem_append _ _ (newline_not_mem_append _ _ (newline_not_mem_append _ _
    (newline_not_mem_append _ _ (by decide) (quoteID_no_newline _ hp)) (by decide))
    (quoteID_no_newline _ hc)) (by decide)

theorem partOfEdgeStmt_no_newline (p c : String) (hp : '\n' ∉ p.data)
    (hc : '\n' ∉ c.data) : '\n' ∉ (partOfEdgeStmt p c).data := by
  rw [partOfEdgeStmt]
  exact newline_not_mem_append _ _ (newline_not_mem_append _ _ (newline_not_mem_append _ _
    (newline_not_mem_append _ _ (by decide) (quoteID_no_newline _ hp)) (by decide))
    (quoteID_no_newline _ hc)) (by decide)

theorem mitigatesEdgeStmt_no_newline (p c : String) (hp : '\n' ∉ p.data)
    (hc : '\n' ∉ c.data) : '\n' ∉ (mitigatesEdgeStmt p c).data := by
  rw [mitigatesEdgeStmt]
  exact newline_not_mem_append _ _ (newline_not_mem_append _ _ (newline_not_mem_append _ _
    (newline_not_mem_append _ _ (by decide) (quoteID_no_newline _ hp)) (by decide))
    (quoteID_no_newline _ hc)) (by decide)

theorem insertTechniqueStmt_endsSemi (t : techniqueInfo) :
    ∃ p, insertTechniqueStmt t = p ++ ";" := by
  rw [insertTechniqueStmt,
    show (", \"18.0\", false, 4, 0.1667, 120);" : String)
      = ", \"18.0\", false, 4, 0.1667, 120)" ++ ";" from rfl,
    ← String.append_assoc]
  exact ⟨_, rfl⟩

theorem subtechEdgeStmt_endsSemi (p c : String) :
    ∃ q, subtechEdgeStmt p c = q ++ ";" := by
  rw [subtechEdgeStmt, show ("@0:();" : String) = "@0:()" ++ ";" from rfl,
    ← String.append_assoc]
  exact ⟨_, rfl⟩

theorem partOfEdgeStmt_endsSemi (p c : String) :
    ∃ q, partOfEdgeStmt p c = q ++ ";" := by
  rw [partOfEdgeStmt, show ("@0:();" : String) = "@0:()" ++ ";" from rfl,
    ← String.append_assoc]
  exact ⟨_, rfl⟩

theorem mitigatesEdgeStmt_endsSemi (p c : String) :
    ∃ q, mitigatesEdgeStmt p c = q ++ ";" := by
  rw [mitigatesEdgeStmt,
    show ("@0:(NULL, \"Enterprise\");" : String)
      = "@0:(NULL, \"Enterprise\")" ++ ";" from rfl,
    ← String.append_assoc]
  exact ⟨_, rfl⟩

/-- C8 counterexample, refuting two conjuncts of the claim.  Quoting: on
a technique name holding a double quote the node-insert statement renders
the attribute literal with a backslash escape (`\"`, Go string quoting
via `quoteLiteral`), not with a doubled quote, so "string literals are
double-quoted with internal double quotes doubled" fails — doubling is
used for the vertex-id strings (`quoteID`) only.  Single line: a vertex
id holding a newline passes through `quoteID` unescaped (only `"` is
rewritten), so the node-insert statement for the code `T1\n548` spans two
lines and "every generated statement is a single line" fails as an
unconditional statement. -/
theorem C8_counterexample :
    insertTechniqueStmt ⟨"T1548", "a\"b", []⟩
      = "INSERT VERTEX IF NOT EXISTS tMitreTechnique(Technique_ID, Technique_Name, Mitre_Attack_Version, rcelpe, priority, execution_min, execution_max) VALUES \"T1548\":(\"T1548\", \"a\\\"b\", \"18.0\", false, 4, 0.1667, 120);"
    ∧ (insertTechniqueStmt ⟨"T1548", "a\"b", []⟩).data.contains '\\' = true
    ∧ quoteLiteral "a\"b" ≠ quoteID "a\"b"
    ∧ '\n' ∈ (insertTechniqueStmt ⟨"T1\n548", "N", []⟩).data :=
  ⟨by decide, by decide, by decide, by decide⟩

/-- C8 amended: every statement of the four templates ends in `;` and,
when the embedded identifier strings contain no newline, is a single
line; vertex-id strings double internal quotes (`quoteID`) while
attribute literals are Go-quoted with backslash escapes (`quoteLiteral`);
and the node-insert statement carries the constants
`"18.0", false, 4, 0.1667, 120` verbatim.  (No back-tick delimiting
appears in any template: the fixed identifiers need none.) -/
theorem C8_amended (m tacticID : String) (t : techniqueInfo)
    (hm : '\n' ∉ m.data) (hext : '\n' ∉ t.ExternalID.data)
    (htac : '\n' ∉ tacticID.data) :
    (∀ s ∈ [insertTechniqueStmt t,
            subtechEdgeStmt (getParentTechniqueID t.ExternalID) t.ExternalID,
            partOfEdgeStmt t.ExternalID tacticID,
            mitigatesEdgeStmt m t.ExternalID],
        (∃ p, s = p ++ ";") ∧ '\n' ∉ s.data)
    ∧ (∃ p, insertTechniqueStmt t
        = p ++ ", \"18.0\", false, 4, 0.1667, 120);")
    ∧ quoteID "a\"b" = "\"a\"\"b\""
    ∧ quoteLiteral "a\"b" = "\"a\\\"b\"" := by
  refine ⟨?_, ⟨_, rfl⟩, by decide, by decide⟩
  intro s hs
  simp only [List.mem_cons, List.not_mem_nil, or_false] at hs
  rcases hs with rfl | rfl | rfl | rfl
  · exact ⟨insertTechniqueStmt_endsSemi t, insertTechniqueStmt_no_newline t hext⟩
  · exact ⟨subtechEdgeStmt_endsSemi _ _,
      subtechEdgeStmt_no_newline _ _ (getParent_no_newline _ hext) hext⟩
  · exact ⟨partOfEdgeStmt_endsSemi _ _, partOfEdgeStmt_no_newline _ _ hext htac⟩
  · exact ⟨mitigatesEdgeStmt_endsSemi _ _, mitigatesEdgeStmt_no_newline _ _ hm hext⟩

/-- Witness for the amended C8 at a concrete statement. -/
theorem C8_amended_witness :
    (∃ p, insertTechniqueStmt ⟨"T1071.001", "Web Protocols", []⟩ = p ++ ";")
    ∧ '\n' ∉ (insertTechniqueStmt ⟨"T1071.001", "Web Protocols", []⟩).data :=
  (C8_amended "M1037" "TA0011" ⟨"T1071.001", "Web Protocols", []⟩
    (by decide) (by decide) (by decide)).1 _ (List.mem_cons_self _ _)

/-!  ## The external-code fallback (C9) -/

theorem trimLeading_ne_empty (id : String) (h1 : id ≠ "")
    (h2 : id ≠ "attack-pattern--") : trimLeading id "attack-pattern--" ≠ "" := by
  rw [trimLeading]
  by_cases hp : ("attack-pattern--" : String).data.isPrefixOf id.data
  · rw [if_pos hp]
    obtain ⟨tail, htail⟩ := List.isPrefixOf_iff_prefix.mp hp
    intro hcontra
    have hdrop : id.data.drop ("attack-pattern--" : String).data.length = tail := by
      rw [← htail, List.drop_left]
    rw [hdrop] at hcontra
    have htailnil : tail = [] := congrArg String.data hcontra
    subst htailnil
    apply h2
    have hdata : id.data = ("attack-pattern--" : String).data := by
      rw [← htail, List.append_nil]
    calc id = String.mk id.data := (mk_data_eq id).symm
      _ = String.mk ("attack-pattern--" : String).data := by rw [hdata]
      _ = "attack-pattern--" := mk_data_eq _
  · rw [if_neg hp]
    exact h1

theorem externalID_ne_empty (refs : List externalReference) (e : String)
    (h : externalID refs = some e) : e ≠ "" := by
  induction refs with
  | nil => simp [externalID] at h
  | cons r rs ih =>
    rw [externalID] at h
    by_cases hc : (goEqualFold r.SourceName "mitre-attack" && r.ExternalID != "") = true
    · rw [if_pos hc] at h
      obtain rfl := Option.some.inj h
      rw [Bool.and_eq_true] at hc
      exact bne_iff_ne.mp hc.2
    · rw [if_neg hc] at h
      exact ih h

theorem mem_rawMitigatedEntries (techMap : String → Option attackPattern)
    (chosen : String) :
    ∀ (rels : List relationship) (t : techniqueInfo),
      t ∈ rawMitigatedEntries techMap chosen rels →
        ∃ r ∈ rels, r.RelationshipType = "mitigates" ∧ r.SourceRef = chosen
          ∧ ∃ tp, techMap r.TargetRef = some tp ∧ t = entryOf tp := by
  intro rels
  induction rels with
  | nil =>
    intro t ht
    simp [rawMitigatedEntries] at ht
  | cons r rest ih =>
    intro t ht
    rw [rawMitigatedEntries] at ht
    by_cases hc : (r.RelationshipType == "mitigates" && r.SourceRef == chosen) = true
    · rw [if_pos hc] at ht
      rw [Bool.and_eq_true, beq_iff_eq, beq_iff_eq] at hc
      cases hM : techMap r.TargetRef with
      | none =>
        rw [hM] at ht
        obtain ⟨r2, hr2, h1, h2, tp2, htp2, heq⟩ := ih t ht
        exact ⟨r2, List.mem_cons_of_mem _ hr2, h1, h2, tp2, htp2, heq⟩
      | some tp =>
        rw [hM] at ht
        rcases List.mem_cons.mp ht with rfl | ht
        · exact ⟨r, List.mem_cons_self _ _, hc.1, hc.2, tp, hM, rfl⟩
        · obtain ⟨r2, hr2, h1, h2, tp2, htp2, heq⟩ := ih t ht
          exact ⟨r2, List.mem_cons_of_mem _ hr2, h1, h2, tp2, htp2, heq⟩
    · rw [if_neg hc] at ht
      obtain ⟨r2, hr2, h1, h2, tp2, htp2, heq⟩ := ih t ht
      exact ⟨r2, List.mem_cons_of_mem _ hr2, h1, h2, tp2, htp2, heq⟩

/-- C9 counterexample: a record with no catalogue-tagged reference whose
internal id is exactly `attack-pattern--` is collected with the empty
external code, so the fallback does not guarantee a non-empty code for
every behavior in the result set. -/
theorem C9_counterexample :
    collectTechniques degenerateTechMap "mit1"
        [{ ID := "r1", RelationshipType := "mitigates",
           SourceRef := "mit1", TargetRef := "ap1" }]
      = [{ ExternalID := "", Name := "Ghost", Tactics := [] }]
    ∧ ¬ ∀ t ∈ collectTechniques degenerateTechMap "mit1"
        [{ ID := "r1", RelationshipType := "mitigates",
           SourceRef := "mit1", TargetRef := "ap1" }], t.ExternalID ≠ "" := by
  have heq : collectTechniques degenerateTechMap "mit1"
      [{ ID := "r1", RelationshipType := "mitigates",
         SourceRef := "mit1", TargetRef := "ap1" }]
      = [{ ExternalID := "", Name := "Ghost", Tactics := [] }] := by
    rw [collectTechniques]
    rw [show collectLoop degenerateTechMap "mit1"
          [{ ID := "r1", RelationshipType := "mitigates",
             SourceRef := "mit1", TargetRef := "ap1" }] []
        = [{ ExternalID := "", Name := "Ghost", Tactics := [] }] from by decide]
    exact List.mergeSort_singleton _
  refine ⟨heq, fun hall => ?_⟩
  have := hall { ExternalID := "", Name := "Ghost", Tactics := [] }
    (by rw [heq]; exact List.mem_cons_self _ _)
  exact this rfl

/-- C9 amended: when no catalogue-tagged reference provides a code, the
external code is the internal id with the type prefix trimmed; this
yields a non-empty code for every collected behavior provided each
dereferenced record — each record reached through a kept `mitigates`
relationship of the chosen mitigation — has an internal id that is
neither empty nor exactly the type prefix (codes from tagged references
are non-empty unconditionally, and records never dereferenced are not
constrained). -/
theorem C9_fallback_code (techMap : String → Option attackPattern) (chosen : String)
    (rels : List relationship)
    (hids : ∀ r ∈ rels, r.RelationshipType = "mitigates" → r.SourceRef = chosen →
        ∀ tp, techMap r.TargetRef = some tp →
          tp.ID ≠ "" ∧ tp.ID ≠ "attack-pattern--") :
    (∀ tp : attackPattern, externalID tp.ExternalRefs = none →
        behaviorExtCode tp = trimLeading tp.ID "attack-pattern--")
    ∧ ∀ t ∈ collectTechniques techMap chosen rels, t.ExternalID ≠ "" := by
  constructor
  · intro tp h
    rw [behaviorExtCode, h]
    rfl
  · intro t ht
    have hperm : (collectTechniques techMap chosen rels).Perm
        (collectLoop techMap chosen rels []) := List.mergeSort_perm _ _
    have ht2 : t ∈ collectLoop techMap chosen rels [] := hperm.mem_iff.mp ht
    rw [collectLoop_eq_dedupSeen] at ht2
    have ht3 : t ∈ rawMitigatedEntries techMap chosen rels := dedupSeen_subset _ _ ht2
    obtain ⟨r, hrmem, hT, hS, tp, htpm, rfl⟩ :=
      mem_rawMitigatedEntries techMap chosen rels t ht3
    obtain ⟨hid1, hid2⟩ := hids r hrmem hT hS tp htpm
    show behaviorExtCode tp ≠ ""
    cases hE : externalID tp.ExternalRefs with
    | none =>
      rw [behaviorExtCode, hE]
      exact trimLeading_ne_empty tp.ID hid1 hid2
    | some e =>
      have hne := externalID_ne_empty tp.ExternalRefs e hE
      rw [behaviorExtCode, hE]
      show (if e = "" then trimLeading tp.ID "attack-pattern--" else e) ≠ ""
      rw [if_neg hne]
      exact hne

/-- Witness for the amended C9: the concrete collected behavior derived
from internal id `attack-pattern--x` has the non-empty code `x`; the
technique map also holds an unreferenced degenerate record, which the
dereferenced-records-only hypothesis does not constrain. -/
theorem C9_fallback_code_witness :
    ({ ExternalID := "x", Name := "N", Tactics := [] } : techniqueInfo).ExternalID ≠ "" :=
  (C9_fallback_code
    (fun s => if s = "ap1" then
        some { ID := "attack-pattern--x", Name := "N",
               ExternalRefs := [], KillChain := [] }
      else if s = "ap2" then
        some { ID := "attack-pattern--", Name := "Degenerate",
               ExternalRefs := [], KillChain := [] }
      else none)
    "mit1"
    [{ ID := "r1", RelationshipType := "mitigates",
       SourceRef := "mit1", TargetRef := "ap1" }]
    (by
      intro r hr hT hS tp h
      rw [List.mem_singleton] at hr
      subst hr
      have h2 : (if ("ap1" : String) = "ap1" then
          some ({ ID := "attack-pattern--x", Name := "N",
                  ExternalRefs := [], KillChain := [] } : attackPattern)
        else if ("ap1" : String) = "ap2" then
          some ({ ID := "attack-pattern--", Name := "Degenerate",
                  ExternalRefs := [], KillChain := [] } : attackPattern)
        else none) = some tp := h
      rw [if_pos rfl] at h2
      obtain rfl := Option.some.inj h2
      exact ⟨by decide, by decide⟩)).2
    { ExternalID := "x", Name := "N", Tactics := [] }
    (by
      rw [collectTechniques]
      rw [show collectLoop
            (fun s => if s = "ap1" then
                some { ID := "attack-pattern--x", Name := "N",
                       ExternalRefs := [], KillChain := [] }
              else if s = "ap2" then
                some { ID := "attack-pattern--", Name := "Degenerate",
                       ExternalRefs := [], KillChain := [] }
              else none)
            "mit1"
            [{ ID := "r1", RelationshipType := "mitigates",
               SourceRef := "mit1", TargetRef := "ap1" }] []
          = [{ ExternalID := "x", Name := "N", Tactics := [] }] from by decide]
      rw [List.mergeSort_singleton]
      exact List.mem_singleton.mpr rfl)

end Mitremit
